import Mathlib

/-!
Verification of the statistics engine of `p2p-node-stats` (src/lib.rs).

Modelling conventions:
* `Duration` is modelled as a natural number of nanoseconds (Rust's
  `std::time::Duration` is an integer nanosecond count; addition is exact
  and division by a count truncates at nanosecond granularity).
* Rust `f64` arithmetic on the standard-deviation path (`as_secs_f64`,
  `powi`, `sqrt`, `from_secs_f64`) is idealised as exact real arithmetic,
  with `from_secs_f64` rounding back to the nearest nanosecond.
* `CHashMap<String, Vec<Duration>>` is modelled as an association list;
  iteration order is the list order (the map's order is unspecified).
* A Rust panic (`Vec::remove(0)` on an empty vector) is modelled as `none`;
  operations that cannot panic return `some`.
* `{:?}` (Debug) formatting of a peer string is modelled as wrapping in
  double quotes; escaping of special characters inside the id is elided.
-/

/-- Rust `std::time::Duration`, as an integer number of nanoseconds. -/
abbrev Duration := Nat

/-- `Vec::push_lossy` from `impl<T> PushLossy<T> for Vec<T>`:
if `self.len() >= window_size` remove the first element, then push.
`none` models the panic of `remove(0)` on an empty vector. -/
def push_lossy {T : Type} (v : List T) (element : T) (window_size : Nat) :
    Option (List T) :=
  if window_size ≤ v.length then
    match v with
    | [] => none
    | _ :: rest => some (rest ++ [element])
  else
    some (v ++ [element])

/-- Sequential `push_lossy` of a list of elements, left to right, as performed
by repeated `record` calls for the same peer. -/
def pushSeq {T : Type} (v : List T) (elems : List T) (window_size : Nat) :
    Option (List T) :=
  match elems with
  | [] => some v
  | x :: xs =>
    match push_lossy v x window_size with
    | none => none
    | some v2 => pushSeq v2 xs window_size

/-- `Duration::as_secs_f64`, idealised: the duration in fractional seconds. -/
noncomputable def secs_f64 (d : Duration) : ℝ := (d : ℝ) / 1000000000

/-- `Duration::from_secs_f64`, idealised: convert fractional seconds back to a
`Duration` by rounding to the nearest nanosecond. -/
noncomputable def from_secs_f64 (x : ℝ) : Duration :=
  (round (x * 1000000000)).toNat

/-- `durations_mean` from src/lib.rs: `None` on an empty list, otherwise the
fold-sum of the durations divided by the count (`Duration / u32`, a
truncating division at nanosecond granularity). -/
def durations_mean (durations : List Duration) : Option Duration :=
  if durations.isEmpty then
    none
  else
    some ((durations.foldl (fun acc x => acc + x) 0) / durations.length)

/-- `durations_std_dev` from src/lib.rs: take the mean (propagating `None` via
`?`), convert it to fractional seconds, fold up the squared deviations of the
samples from it, divide by the count and take the square root, converting the
result back to a `Duration`. -/
noncomputable def durations_std_dev (durations : List Duration) :
    Option Duration :=
  match durations_mean durations with
  | none => none
  | some m =>
    let mean := secs_f64 m
    some (from_secs_f64 (Real.sqrt
      ((durations.foldl (fun acc x => acc + (secs_f64 x - mean) ^ 2) 0) /
        (durations.length : ℝ))))

/-- `durations_error_with_ci` from src/lib.rs: `z * std_dev / sqrt(n)` with the
fixed 95%-confidence critical value `z = 1.96`, `None` propagated from
`durations_std_dev` via `?`. -/
noncomputable def durations_error_with_ci (durations : List Duration) :
    Option Duration :=
  let z : ℝ := 1.96
  match durations_std_dev durations with
  | none => none
  | some std_dev =>
    some (from_secs_f64
      (z * secs_f64 std_dev / Real.sqrt (durations.length : ℝ)))

/-- Drop trailing `'0'` characters, as Rust's `Debug` for `Duration` does to
the fractional part. -/
def stripTrailingZeros (s : String) : String :=
  String.mk ((s.data.reverse.dropWhile (fun c => c == '0')).reverse)

/-- Pad a digit string with leading zeros up to `w` characters. -/
def padLeftZeros (s : String) (w : Nat) : String :=
  String.mk (List.replicate (w - s.length) '0') ++ s

/-- One branch of Rust's `Debug` formatting for `Duration`: integer part,
then the fractional part (`fracDigits` digits, trailing zeros stripped, the
decimal point omitted when nothing remains), then the unit. -/
def fmtDecimal (intPart fracPart fracDigits : Nat) (unit : String) : String :=
  let fs := stripTrailingZeros (padLeftZeros (Nat.repr fracPart) fracDigits)
  Nat.repr intPart ++ (if fs = "" then "" else "." ++ fs) ++ unit

/-- Rust's `Debug` formatting for `Duration` (no precision specifier):
seconds when at least one second, else milliseconds, microseconds or
nanoseconds. -/
def fmtDuration (d : Duration) : String :=
  let secs := d / 1000000000
  let nanos := d % 1000000000
  if 0 < secs then
    fmtDecimal secs nanos 9 "s"
  else if 1000000 ≤ nanos then
    fmtDecimal (nanos / 1000000) (nanos % 1000000) 6 "ms"
  else if 1000 ≤ nanos then
    fmtDecimal (nanos / 1000) (nanos % 1000) 3 "µs"
  else
    Nat.repr nanos ++ "ns"

/-- Rust's `Debug` formatting (`{:?}`) for a string: wrapped in double quotes
(escaping inside the id elided; peer ids here contain no special
characters). -/
def debugStr (s : String) : String := "\"" ++ s ++ "\""

/-- One entry of the ping section of `impl fmt::Display for Stats`: the match
over `(durations_mean, durations_error_with_ci)`; a data line ends with a
newline, the no-data text does not. -/
noncomputable def pingLine (peer : String) (durations : List Duration) :
    String :=
  match durations_mean durations, durations_error_with_ci durations with
  | some duration, some error =>
    debugStr peer ++ " " ++ fmtDuration duration ++ "±" ++
      fmtDuration error ++ "\n"
  | _, _ => "No ping data for peer " ++ debugStr peer

/-- One entry of the transmission-rate section of
`impl fmt::Display for Stats`. -/
noncomputable def transmissionLine (peer : String) (durations : List Duration) :
    String :=
  match durations_mean durations, durations_error_with_ci durations with
  | some duration, some error =>
    debugStr peer ++ " " ++ fmtDuration duration ++ "±" ++
      fmtDuration error ++ " per byte\n"
  | _, _ => "No transmission data for peer " ++ debugStr peer

/-- The `Stats` struct from src/lib.rs; the two concurrent hash maps are
modelled as association lists iterated in list order. -/
structure Stats where
  pings_to_peers : List (String × List Duration)
  transmissions_rates : List (String × List Duration)
  window_size : Nat
  peer_id : String

/-- `impl fmt::Display for Stats`: the full report text, exactly as produced
by the `write!` format string
`"{:?}\nPing mean for each peer:\n{}Transmission rate mean by peer:\n{}"`. -/
noncomputable def Stats.render (s : Stats) : String :=
  let ping_by_peer : String :=
    String.join (s.pings_to_peers.map (fun p => pingLine p.1 p.2))
  let transmission_rate_by_peer : String :=
    String.join (s.transmissions_rates.map (fun p => transmissionLine p.1 p.2))
  debugStr s.peer_id ++ "\nPing mean for each peer:\n" ++ ping_by_peer ++
    "Transmission rate mean by peer:\n" ++ transmission_rate_by_peer

theorem push_lossy_below {T : Type} (v : List T) (e : T) (w : Nat)
    (h : v.length < w) : push_lossy v e w = some (v ++ [e]) := by
  simp [push_lossy, Nat.not_le.mpr h]

theorem push_lossy_at_capacity {T : Type} (h : T) (t : List T) (e : T) (w : Nat)
    (hw : w ≤ t.length + 1) : push_lossy (h :: t) e w = some (t ++ [e]) := by
  unfold push_lossy
  rw [if_pos (by simpa using hw)]

/-- The sliding-window behaviour of sequential pushes: starting from a window
of length at most `w ≥ 1`, pushing `elems` never panics and leaves exactly the
last `w` elements of the concatenation. -/
theorem pushSeq_sliding {T : Type} (elems : List T) :
    ∀ (v : List T) (w : Nat), 1 ≤ w → v.length ≤ w →
      pushSeq v elems w =
        some ((v ++ elems).drop (v.length + elems.length - w)) := by
  induction elems with
  | nil =>
    intro v w _ hv
    simp [pushSeq, Nat.sub_eq_zero_of_le (by simpa using hv)]
  | cons x xs ih =>
    intro v w hw hv
    rcases Nat.lt_or_ge v.length w with hlt | hge
    · have hpush := push_lossy_below v x w hlt
      have hlen : (v ++ [x]).length ≤ w := by
        simp only [List.length_append, List.length_cons, List.length_nil]
        omega
      have := ih (v ++ [x]) w hw hlen
      simp only [pushSeq, hpush]
      rw [this]
      congr 1
      have harr : v ++ [x] ++ xs = v ++ x :: xs := by
        simp
      rw [harr]
      congr 1
      simp only [List.length_append, List.length_cons, List.length_nil]
      omega
    · have heq : v.length = w := Nat.le_antisymm hv hge
      cases v with
      | nil =>
        simp only [List.length_nil] at heq
        omega
      | cons h t =>
        have hcap : w ≤ t.length + 1 := by
          simp only [List.length_cons] at heq
          omega
        have hpush := push_lossy_at_capacity h t x w hcap
        have hlen : (t ++ [x]).length ≤ w := by
          simp only [List.length_append, List.length_cons, List.length_nil]
          simp only [List.length_cons] at heq
          omega
        have := ih (t ++ [x]) w hw hlen
        simp only [pushSeq, hpush]
        rw [this]
        congr 1
        have harr : t ++ [x] ++ xs = t ++ x :: xs := by
          simp
        rw [harr]
        have hidx : (t ++ [x]).length + xs.length - w = xs.length := by
          simp only [List.length_append, List.length_cons, List.length_nil]
          simp only [List.length_cons] at heq
          omega
        rw [hidx]
        have hidx2 : (h :: t).length + (x :: xs).length - w = xs.length + 1 := by
          simp only [List.length_cons]
          simp only [List.length_cons] at heq
          omega
        rw [hidx2]
        simp [List.drop_succ_cons]

theorem foldl_add_fn {M : Type} [AddCommMonoid M] {α : Type} (f : α → M)
    (l : List α) : ∀ a : M, l.foldl (fun acc x => acc + f x) a =
      a + (l.map f).sum := by
  induction l with
  | nil => intro a; simp
  | cons x xs ih =>
    intro a
    simp only [List.foldl_cons, List.map_cons, List.sum_cons, ih, add_assoc]

theorem foldl_add_nat (l : List ℕ) : ∀ a : ℕ,
    l.foldl (fun acc x => acc + x) a = a + l.sum := by
  induction l with
  | nil => intro a; simp
  | cons x xs ih =>
    intro a
    simp only [List.foldl_cons, List.sum_cons, ih, Nat.add_assoc]

theorem durations_mean_none_iff (l : List Duration) :
    durations_mean l = none ↔ l = [] := by
  unfold durations_mean
  cases l with
  | nil => simp
  | cons x xs => simp

theorem durations_mean_of_ne_nil (l : List Duration) (h : l ≠ []) :
    durations_mean l = some (l.sum / l.length) := by
  unfold durations_mean
  rw [if_neg (by simpa using h), foldl_add_nat]
  simp

theorem durations_mean_singleton (x : Duration) :
    durations_mean [x] = some x := by
  simp [durations_mean]

theorem durations_std_dev_none_iff (l : List Duration) :
    durations_std_dev l = none ↔ l = [] := by
  unfold durations_std_dev
  rcases hm : durations_mean l with _ | m
  · simpa using (durations_mean_none_iff l).mp hm
  · simp only [Option.some.injEq]
    constructor
    · intro h; exact absurd h (by simp)
    · intro h
      subst h
      exact absurd hm (by simp [durations_mean])

theorem durations_std_dev_formula (l : List Duration) (m : Duration)
    (hm : durations_mean l = some m) :
    durations_std_dev l = some (from_secs_f64 (Real.sqrt
      ((l.map (fun x => (secs_f64 x - secs_f64 m) ^ 2)).sum /
        (l.length : ℝ)))) := by
  unfold durations_std_dev
  rw [hm]
  simp only [Option.some.injEq]
  congr 2
  rw [foldl_add_fn (fun x => (secs_f64 x - secs_f64 m) ^ 2) l 0, zero_add]

theorem durations_std_dev_singleton (x : Duration) :
    durations_std_dev [x] = some 0 := by
  unfold durations_std_dev
  rw [durations_mean_singleton]
  simp [from_secs_f64]

theorem durations_error_with_ci_eq (l : List Duration) (sd : Duration)
    (hsd : durations_std_dev l = some sd) :
    durations_error_with_ci l =
      some (from_secs_f64 (1.96 * secs_f64 sd / Real.sqrt (l.length : ℝ))) := by
  unfold durations_error_with_ci
  rw [hsd]

theorem durations_error_none_iff (l : List Duration) :
    durations_error_with_ci l = none ↔ l = [] := by
  constructor
  · intro h
    rcases hs : durations_std_dev l with _ | sd
    · exact (durations_std_dev_none_iff l).mp hs
    · rw [durations_error_with_ci_eq l sd hs] at h
      exact absurd h (by simp)
  · intro h
    subst h
    rfl

/-- C1 -- For every window size `k ≥ 1` and every list of `n > k` samples pushed
sequentially via `push_lossy` starting from an empty window, the resulting
window has length exactly `k` and is precisely the last `k` pushed samples in
insertion order (the oldest are evicted first). -/
theorem claim_C1_window_holds_last_k {T : Type} (k : Nat) (L : List T)
    (hk : 1 ≤ k) (hn : k < L.length) :
    pushSeq ([] : List T) L k = some (L.drop (L.length - k)) ∧
      (L.drop (L.length - k)).length = k := by
  constructor
  · have := pushSeq_sliding L ([] : List T) k hk (by simp)
    simpa using this
  · rw [List.length_drop]
    omega

/-- Witness for C1 at the spec's end-to-end scenario: window size 3, four
pushed samples 1s, 3s, 5s, 7s (in nanoseconds). -/
theorem claim_C1_window_holds_last_k_witness :
    pushSeq ([] : List Duration)
        [1000000000, 3000000000, 5000000000, 7000000000] 3 =
      some ([1000000000, 3000000000, 5000000000, 7000000000].drop
        ([1000000000, 3000000000, 5000000000, 7000000000].length - 3)) ∧
      (([1000000000, 3000000000, 5000000000, 7000000000] : List Duration).drop
        ([1000000000, 3000000000, 5000000000, 7000000000].length - 3)).length = 3 :=
  claim_C1_window_holds_last_k 3
    [1000000000, 3000000000, 5000000000, 7000000000] (by decide) (by decide)

/-- C2 -- Every completed `push_lossy` call preserves the length bound: if the
vector's length was at most `w` before, it is at most `w` after; when the
window is exactly at capacity, the single oldest element is evicted first. -/
theorem claim_C2_length_bound_preserved {T : Type} (v : List T) (e : T)
    (w : Nat) (r : List T) (hv : v.length ≤ w)
    (hr : push_lossy v e w = some r) :
    r.length ≤ w ∧ (v.length = w → r = v.tail ++ [e]) := by
  unfold push_lossy at hr
  by_cases hc : w ≤ v.length
  · rw [if_pos hc] at hr
    cases v with
    | nil => exact absurd hr (by simp)
    | cons h t =>
      simp only [Option.some.injEq] at hr
      subst hr
      constructor
      · simp only [List.length_append, List.length_cons, List.length_nil]
        simp only [List.length_cons] at hv
        omega
      · intro _
        simp
  · rw [if_neg hc] at hr
    simp only [Option.some.injEq] at hr
    subst hr
    constructor
    · simp only [List.length_append, List.length_cons, List.length_nil]
      omega
    · intro hw
      omega

/-- Witness for C2: a window `[9, 5]` at capacity `w = 2`. -/
theorem claim_C2_length_bound_preserved_witness :
    (([9, 5] : List Duration) ++ [7]).tail.length ≤ 2 ∧
      push_lossy ([9, 5] : List Duration) 7 2 = some [5, 7] ∧
      ([5, 7] : List Duration).length ≤ 2 := by
  refine ⟨by decide, by decide, ?_⟩
  exact (claim_C2_length_bound_preserved [9, 5] 7 2 [5, 7]
    (by decide) (by decide)).1

/-- C3 -- `durations_mean` is `None` exactly on the empty sequence (never
dividing by zero, never fabricating a default) and otherwise returns the
arithmetic mean: the sum of all samples divided by the count. -/
theorem claim_C3_mean_sum_div_count (l : List Duration) :
    (durations_mean l = none ↔ l = []) ∧
      (l ≠ [] → durations_mean l = some (l.sum / l.length)) :=
  ⟨durations_mean_none_iff l, durations_mean_of_ne_nil l⟩

/-- Witness for C3 on the concrete sequence `[2, 4]`. -/
theorem claim_C3_mean_sum_div_count_witness :
    durations_mean [2, 4] =
      some (([2, 4] : List Duration).sum / ([2, 4] : List Duration).length) :=
  (claim_C3_mean_sum_div_count [2, 4]).2 (by decide)

/-- C4 -- `durations_std_dev` computes the population standard deviation:
the square root of the sum of squared deviations from the (computed) mean
divided by the count `n` (not `n - 1`, so not Bessel-corrected), over the
fractional-seconds representation; it is `None` exactly on the empty input and
`some 0` on every single-element input. -/
theorem claim_C4_std_dev_population (l : List Duration) :
    (durations_std_dev l = none ↔ l = []) ∧
      (∀ x : Duration, durations_std_dev [x] = some 0) ∧
      (∀ m : Duration, durations_mean l = some m →
        durations_std_dev l = some (from_secs_f64 (Real.sqrt
          ((l.map (fun x => (secs_f64 x - secs_f64 m) ^ 2)).sum /
            (l.length : ℝ))))) :=
  ⟨durations_std_dev_none_iff l, durations_std_dev_singleton,
    fun m hm => durations_std_dev_formula l m hm⟩

/-- Witness for C4 at the spec's example `[1s, 3s, 5s]`, whose mean is exactly
3s. -/
theorem claim_C4_std_dev_population_witness :
    durations_std_dev [1000000000, 3000000000, 5000000000] =
      some (from_secs_f64 (Real.sqrt
        ((([1000000000, 3000000000, 5000000000] : List Duration).map
            (fun x => (secs_f64 x - secs_f64 3000000000) ^ 2)).sum /
          (([1000000000, 3000000000, 5000000000] : List Duration).length : ℝ)))) :=
  (claim_C4_std_dev_population [1000000000, 3000000000, 5000000000]).2.2
    3000000000 (by decide)

/-- C5 -- `durations_error_with_ci` is `None` exactly on the empty input
(enforcing no minimum sample count such as `n ≥ 30`), and otherwise returns
`z * std_dev / sqrt(n)` with the fixed constant `z = 1.96`, where `std_dev` is
the computed standard deviation. -/
theorem claim_C5_error_with_ci_formula (l : List Duration) :
    (durations_error_with_ci l = none ↔ l = []) ∧
      (∀ sd : Duration, durations_std_dev l = some sd →
        durations_error_with_ci l = some (from_secs_f64
          (1.96 * secs_f64 sd / Real.sqrt (l.length : ℝ)))) :=
  ⟨durations_error_none_iff l, fun sd hsd => durations_error_with_ci_eq l sd hsd⟩

/-- Witness for C5 on the single-sample window `[5]` (well below 30 samples,
whose standard deviation is 0) -- the error bound is still defined. -/
theorem claim_C5_error_with_ci_formula_witness :
    durations_error_with_ci [5] = some (from_secs_f64
      (1.96 * secs_f64 0 / Real.sqrt ((([5] : List Duration).length : ℝ)))) :=
  (claim_C5_error_with_ci_formula [5]).2 0 (durations_std_dev_singleton 5)

/-- C9 -- `durations_mean` and `durations_error_with_ci` are defined on exactly
the same inputs (the non-empty ones), so in the report's match over the pair
the mixed cases are unreachable: a peer's entry is the no-data text exactly
when its window is empty, and otherwise both statistics exist and the data
line is rendered from them. -/
theorem claim_C9_mean_iff_error (l : List Duration) :
    ((durations_mean l).isSome ↔ (durations_error_with_ci l).isSome) ∧
      ((durations_mean l).isSome ↔ l ≠ []) ∧
      (∀ peer : String, l = [] →
        pingLine peer l = "No ping data for peer " ++ debugStr peer) ∧
      (∀ peer : String, l ≠ [] → ∃ m e : Duration,
        durations_mean l = some m ∧ durations_error_with_ci l = some e ∧
          pingLine peer l = debugStr peer ++ " " ++ fmtDuration m ++ "±" ++
            fmtDuration e ++ "\n") := by
  have hmean : (durations_mean l).isSome ↔ l ≠ [] := by
    rw [← Option.ne_none_iff_isSome, not_iff_not]
    exact durations_mean_none_iff l
  have herr : (durations_error_with_ci l).isSome ↔ l ≠ [] := by
    rw [← Option.ne_none_iff_isSome, not_iff_not]
    exact durations_error_none_iff l
  refine ⟨hmean.trans herr.symm, hmean, ?_, ?_⟩
  · intro peer h
    subst h
    rfl
  · intro peer h
    have hm := durations_mean_of_ne_nil l h
    rcases he : durations_error_with_ci l with _ | e
    · exact absurd ((durations_error_none_iff l).mp he) h
    · refine ⟨l.sum / l.length, e, hm, rfl, ?_⟩
      unfold pingLine
      rw [hm, he]

/-- Witness for C9: an empty window yields the no-data text, a one-sample
window yields a full data line. -/
theorem claim_C9_mean_iff_error_witness :
    pingLine "A" [] = "No ping data for peer " ++ debugStr "A" ∧
      (∃ m e : Duration, durations_mean [7] = some m ∧
        durations_error_with_ci [7] = some e ∧
        pingLine "B" [7] = debugStr "B" ++ " " ++ fmtDuration m ++ "±" ++
          fmtDuration e ++ "\n") :=
  ⟨(claim_C9_mean_iff_error []).2.2.1 "A" rfl,
    (claim_C9_mean_iff_error [7]).2.2.2 "B" (by decide)⟩

/-- C6, code-bug exhibit -- the no-data branch of the report omits the trailing
newline: for a store whose only ping peer `"A"` has an empty window, the
rendered report puts the text `No ping data for peer "A"` and the following
section header `Transmission rate mean by peer:` on the same line, so the peer
does not get a line of its own as the claim states. -/
theorem claim_C6_no_data_text_shares_line :
    Stats.render ⟨[("A", [])], [], 3, "self"⟩ =
      "\"self\"\nPing mean for each peer:\nNo ping data for peer \"A\"Transmission rate mean by peer:\n" ∧
      Stats.render ⟨[("A", [])], [], 3, "self"⟩ ≠
        "\"self\"\nPing mean for each peer:\nNo ping data for peer \"A\"\nTransmission rate mean by peer:\n" ∧
      (Stats.render ⟨[("A", [])], [], 3, "self"⟩).data.count '\n' = 3 := by
  have h : Stats.render ⟨[("A", [])], [], 3, "self"⟩ =
      "\"self\"\nPing mean for each peer:\nNo ping data for peer \"A\"Transmission rate mean by peer:\n" := rfl
  refine ⟨h, ?_, ?_⟩
  · rw [h]
    decide
  · rw [h]
    decide

/-- C8, counterexample -- `push_lossy` does panic for one input: with
`window_size = 0` and an empty vector the guard `len >= window_size` holds and
`Vec::remove(0)` is executed on an empty vector, which panics. -/
theorem claim_C8_counterexample :
    push_lossy ([] : List Duration) 0 0 = none := by
  decide

/-- C8, amended -- `push_lossy` panics exactly when called with
`window_size = 0` on an empty vector; for every other input (in particular
whenever `window_size ≥ 1`, as any useful window is) it completes the
append/evict operation with no error path. -/
theorem claim_C8_no_panic_amended {T : Type} (v : List T) (e : T) (w : Nat) :
    push_lossy v e w = none ↔ v = [] ∧ w = 0 := by
  constructor
  · intro h
    unfold push_lossy at h
    by_cases hc : w ≤ v.length
    · rw [if_pos hc] at h
      cases v with
      | nil =>
        simp only [List.length_nil, Nat.le_zero] at hc
        exact ⟨rfl, hc⟩
      | cons x xs => exact absurd h (by simp)
    · rw [if_neg hc] at h
      exact absurd h (by simp)
  · rintro ⟨hv, hw⟩
    subst hv; subst hw
    rfl

/-- C10 -- Below capacity, `push_lossy` leaves all previously stored elements
unchanged and in order and only appends the new element at the end (no
eviction occurs). -/
theorem claim_C10_append_below_capacity {T : Type} (v : List T) (e : T)
    (w : Nat) (h : v.length < w) : push_lossy v e w = some (v ++ [e]) :=
  push_lossy_below v e w h

/-- Witness for C10: pushing onto `[1, 2]` with window size 3. -/
theorem claim_C10_append_below_capacity_witness :
    push_lossy ([1, 2] : List Duration) 9 3 = some ([1, 2] ++ [9]) :=
  claim_C10_append_below_capacity [1, 2] 9 3 (by decide)
